import Mathlib

/-!
Verification of the pattern scheduling core of the DJ PH live-coding music
web application (TypeScript sources `src/patternParser.ts`, `src/sequencer.ts`,
`src/audioEngine.ts`).

The embedding translates the TypeScript code into executable Lean functions:

* `parse`, `isValidNote`, `getMaxPatternLength` embed the `PatternParser`
  class.  JavaScript strings are modelled as Lean `String`s and the string
  operations the code uses (`split('\n')`, `trim()`, `startsWith`,
  `toLowerCase`, the regular expressions `/^(drums|bass|synth)\s*:\s*(.+)$/i`
  and `/^[A-Ga-g][#b]?[0-8]$/` and `split(/\s+/)`) are implemented as
  structurally recursive functions on `List Char` so that concrete instances
  reduce inside the kernel.  `Char.toLower` models `toLowerCase` on the
  ASCII range, which covers the fixed vocabularies the code compares against.
* `playStep` embeds `Sequencer.playStep`, returning the list of calls it
  makes into the `AudioEngine` backend instead of performing them.
* `SequencerState` with `updatePatterns`, `start`, `stop`, `pause`, `resume`
  embeds the mutable state of the `Sequencer` class; `Tone.Transport` state
  is the `transport` field and the `Tone.Sequence` handle is the `sequence`
  field, which records the pattern set and length in effect when the
  sequence was created (`new Tone.Sequence(...)` closes over them).
  `start` is `async` in the source only to await the one-time audio-context
  activation; its state effects are synchronous and modelled as such.
* `runEvents` is a small cooperative (single-threaded) event semantics used
  for the live-swap claims: user operations and scheduler tick callbacks are
  interleaved events, and a tick dispatches `playStep` against the *current*
  `patterns` field, exactly as the callback in `Sequencer.start` does.
* `playDrum` embeds `AudioEngine.playDrum`: the `drums` map has exactly the
  keys kick/snare/hihat/clap, and the `instanceof` chain covers all three
  synth classes stored in the map.
-/

/-- The JavaScript `\s` character class (also used by `String.prototype.trim`),
restricted to the code points it lists. -/
def isWS (c : Char) : Bool :=
  let n := c.toNat
  n == 0x20 || n == 0x09 || n == 0x0a || n == 0x0d || n == 0x0b ||
  n == 0x0c || n == 0xa0 || n == 0x1680 ||
  (0x2000 <= n && n <= 0x200a) ||
  n == 0x2028 || n == 0x2029 || n == 0x202f || n == 0x205f ||
  n == 0x3000 || n == 0xfeff

/-- JavaScript line terminators: the characters `.` does not match in a
non-dotall regular expression. -/
def isLineTerm (c : Char) : Bool :=
  let n := c.toNat
  n == 0x0a || n == 0x0d || n == 0x2028 || n == 0x2029

/-- `String.prototype.toLowerCase`, modelled on the ASCII range. -/
def lowerCL (cs : List Char) : List Char :=
  cs.map Char.toLower

/-- `String.prototype.toLowerCase` on a `String`. -/
def lowerStr (s : String) : String :=
  String.mk (lowerCL s.data)

/-- `String.prototype.trim`: drop leading and trailing `\s` characters. -/
def jsTrimCL (cs : List Char) : List Char :=
  ((cs.dropWhile isWS).reverse.dropWhile isWS).reverse

/-- `String.prototype.startsWith` on character lists. -/
def startsWithCL : List Char → List Char → Bool
  | _, [] => true
  | [], _ :: _ => false
  | a :: as, b :: bs => a = b && startsWithCL as bs

/-- `String.prototype.split('\n')`: accumulate the current line (reversed)
and cut at every newline. -/
def splitOnNewlineAux : List Char → List Char → List (List Char)
  | [], acc => [acc.reverse]
  | c :: cs, acc =>
    if c = '\n' then acc.reverse :: splitOnNewlineAux cs []
    else splitOnNewlineAux cs (c :: acc)

/-- `code.split('\n')`. -/
def splitOnNewline (cs : List Char) : List (List Char) :=
  splitOnNewlineAux cs []

/-- Split at every `\s` character.  `split(/\s+/)` splits on maximal runs;
after the `.filter(n => n.length > 0)` step of the source the two agree, so
the per-character split is composed with that filter in `tokenize`. -/
def splitWSAux : List Char → List Char → List (List Char)
  | [], acc => [acc.reverse]
  | c :: cs, acc =>
    if isWS c then acc.reverse :: splitWSAux cs []
    else splitWSAux cs (c :: acc)

/-- `notesString.trim().split(/\s+/).filter(n => n.length > 0)` from
`PatternParser.parse`. -/
def tokenize (cap : List Char) : List String :=
  ((splitWSAux (jsTrimCL cap) []).filter (fun t => t ≠ [])).map
    (fun t => String.mk t)

/-- The `ParsedPattern` interface from `src/types.ts`: each track is either
absent or maps to its list of step tokens. -/
structure ParsedPattern where
  drums : Option (List String) := none
  bass : Option (List String) := none
  synth : Option (List String) := none
deriving DecidableEq

/-- Semantics of `rest.match` against the tail `\s*(.+)$` of the line regular
expression (applied to everything after the colon): with greedy matching and
backtracking, the capture is the remainder after the leading whitespace when
that remainder is non-empty and free of line terminators; when the remainder
after the colon is entirely whitespace, the capture backtracks to the final
character (which `.` must still be able to match). -/
def jsMatchRest (rest : List Char) : Option (List Char) :=
  match rest with
  | [] => none
  | _ :: _ =>
    match rest.dropWhile isWS with
    | b :: bs =>
      if (b :: bs).any isLineTerm then none else some (b :: bs)
    | [] =>
      match rest.getLast? with
      | some c => if isLineTerm c then none else some [c]
      | none => none

/-- One alternative of `^(drums|bass|synth)\s*:\s*(.+)$/i`: match `name`
case-insensitively at the start of the line, then optional whitespace, then
`:`, then the captured remainder. -/
def tryName (name : String) (cs : List Char) : Option (String × List Char) :=
  if lowerCL (cs.take name.length) = name.data then
    match (cs.drop name.length).dropWhile isWS with
    | c :: rest =>
      if c = ':' then (jsMatchRest rest).map (fun cap => (name, cap))
      else none
    | [] => none
  else none

/-- `line.match(/^(drums|bass|synth)\s*:\s*(.+)$/i)`: the three alternatives
start with distinct letters, so they are tried in order without interaction. -/
def lineMatch (cs : List Char) : Option (String × List Char) :=
  match tryName "drums" cs with
  | some r => some r
  | none =>
    match tryName "bass" cs with
    | some r => some r
    | none => tryName "synth" cs

/-- The per-line work of the loop in `PatternParser.parse`: `none` for a
comment line or a line the regular expression rejects, otherwise the matched
instrument name and its tokenized notes. -/
def parseLine (line : String) : Option (String × List String) :=
  if startsWithCL (jsTrimCL line.data) ['/', '/'] then none
  else
    match lineMatch line.data with
    | none => none
    | some (instr, cap) => some (instr, tokenize cap)

/-- The `if/else if` chain that stores a matched line's notes into the
pattern object. -/
def setTrack (acc : ParsedPattern) (instr : String) (notes : List String) :
    ParsedPattern :=
  if instr = "drums" then { acc with drums := some notes }
  else if instr = "bass" then { acc with bass := some notes }
  else if instr = "synth" then { acc with synth := some notes }
  else acc

/-- One iteration of the `for (const line of lines)` loop. -/
def processLine (acc : ParsedPattern) (line : String) : ParsedPattern :=
  match parseLine line with
  | none => acc
  | some (instr, notes) => setTrack acc instr notes

/-- The body of `PatternParser.parse` after splitting into lines:
`lines.filter(line => line.trim().length > 0)` followed by the loop. -/
def parseLines (lines : List String) : ParsedPattern :=
  (lines.filter (fun l => decide (0 < (jsTrimCL l.data).length))).foldl
    processLine {}

/-- `PatternParser.parse`. -/
def parse (code : String) : ParsedPattern :=
  parseLines ((splitOnNewline code.data).map (fun l => String.mk l))

/-- The `validDrums` array in `PatternParser.isValidNote`. -/
def validDrums : List String :=
  ["kick", "snare", "hihat", "clap"]

/-- The character class `[A-Ga-g]` of the note regular expression. -/
def isNoteLetter (c : Char) : Bool :=
  (decide ('A' ≤ c) && decide (c ≤ 'G')) ||
  (decide ('a' ≤ c) && decide (c ≤ 'g'))

/-- The character class `[0-8]` of the note regular expression. -/
def isOctaveDigit (c : Char) : Bool :=
  decide ('0' ≤ c) && decide (c ≤ '8')

/-- `/^[A-Ga-g][#b]?[0-8]$/` on a character list: two or three characters, a
note letter, an optional `#` or `b`, and an octave digit. -/
def notePatternCL : List Char → Bool
  | [l, o] => isNoteLetter l && isOctaveDigit o
  | [l, m, o] => isNoteLetter l && (m = '#' || m = 'b') && isOctaveDigit o
  | _ => false

/-- `/^[A-Ga-g][#b]?[0-8]$/.test(note)`. -/
def notePatternTest (note : String) : Bool :=
  notePatternCL note.data

/-- `PatternParser.isValidNote`. -/
def isValidNote (note : String) (instrument : String) : Bool :=
  if note = "-" then true
  else if instrument = "drums" then validDrums.contains (lowerStr note)
  else notePatternTest note

/-- `PatternParser.getMaxPatternLength`: fold `Math.max` over the tracks
that are present (a present empty array is truthy in JavaScript and
contributes its length 0). -/
def getMaxPatternLength (p : ParsedPattern) : Nat :=
  let m0 : Nat := 0
  let m1 : Nat := match p.drums with
    | some d => Nat.max m0 d.length
    | none => m0
  let m2 : Nat := match p.bass with
    | some b => Nat.max m1 b.length
    | none => m1
  match p.synth with
  | some s => Nat.max m2 s.length
  | none => m2

/-- A call made by the sequencer into the `AudioEngine` backend:
`playDrum(note, time)`, `playBass(note, '8n', time)` or
`playSynth(note, '8n', time)`.  Time values are opaque to the code (they are
only passed through to the backend), modelled as `Nat`. -/
inductive BackendCall where
  | drumCall (note : String) (time : Nat)
  | bassCall (note : String) (dur : String) (time : Nat)
  | synthCall (note : String) (dur : String) (time : Nat)
deriving DecidableEq

/-- Whether a backend call is a `playDrum` call. -/
def BackendCall.isDrum : BackendCall → Bool
  | .drumCall _ _ => true
  | _ => false

/-- Whether a backend call is a `playBass` call. -/
def BackendCall.isBass : BackendCall → Bool
  | .bassCall _ _ _ => true
  | _ => false

/-- Whether a backend call is a `playSynth` call. -/
def BackendCall.isSynth : BackendCall → Bool
  | .synthCall _ _ _ => true
  | _ => false

/-- One `if (this.patterns.x && step < this.patterns.x.length)` block of
`Sequencer.playStep`: emit the call built by `mk` when the track is present,
the step is in range and the token at the step is not the rest `'-'`. -/
def trackCalls (o : Option (List String)) (step : Nat)
    (mk : String → BackendCall) : List BackendCall :=
  match o with
  | some pat =>
    if step < pat.length then
      let note := pat.getD step "-"
      if note ≠ "-" then [mk note] else []
    else []
  | none => []

/-- `Sequencer.playStep`, with the backend calls it performs returned as a
list (in source order: drums, then bass, then synth). -/
def playStep (patterns : ParsedPattern) (step : Nat) (time : Nat) :
    List BackendCall :=
  trackCalls patterns.drums step (fun n => .drumCall n time) ++
  trackCalls patterns.bass step (fun n => .bassCall n "8n" time) ++
  trackCalls patterns.synth step (fun n => .synthCall n "8n" time)

/-- `Tone.Transport.state`: started / paused / stopped. -/
inductive TransportState where
  | started
  | paused
  | stopped
deriving DecidableEq

/-- The `Tone.Sequence` handle created in `Sequencer.start`.  The callback
closes over the sequencer object, not over a pattern snapshot; the handle
records the pattern set and `maxSteps` value in effect at its creation so
that snapshot claims can be compared against what the callback actually
reads. -/
structure SeqHandle where
  createdWith : ParsedPattern
  steps : Nat
deriving DecidableEq

/-- The mutable state of the `Sequencer` class (plus the `Tone.Transport`
state it drives). -/
structure SequencerState where
  patterns : ParsedPattern
  maxSteps : Nat
  currentStep : Nat
  transport : TransportState
  sequence : Option SeqHandle
deriving DecidableEq

/-- The state of a freshly constructed `Sequencer`. -/
def initSequencer : SequencerState :=
  { patterns := {}, maxSteps := 0, currentStep := 0,
    transport := .stopped, sequence := none }

/-- `Sequencer.isPlaying`: `Tone.Transport.state === 'started'`. -/
def isPlaying (s : SequencerState) : Bool :=
  s.transport = .started

/-- `Sequencer.stop`: stop the transport, stop/dispose/null the sequence,
reset the step counter. -/
def stop (s : SequencerState) : SequencerState :=
  { s with transport := .stopped, sequence := none, currentStep := 0 }

/-- `Sequencer.pause`: `Tone.Transport.pause()` (a Tone clock pauses only
from the started state; otherwise the call has no effect). -/
def pause (s : SequencerState) : SequencerState :=
  if s.transport = .started then { s with transport := .paused } else s

/-- `Sequencer.resume`: `Tone.Transport.start()`. -/
def resume (s : SequencerState) : SequencerState :=
  { s with transport := .started }

/-- `Sequencer.start`: after awaiting the audio-context activation, warn and
return when `maxSteps` is 0; otherwise dispose any existing sequence, reset
the step counter, create a new `Tone.Sequence` over `[0, maxSteps)`, start
it and start the transport. -/
def start (s : SequencerState) : SequencerState :=
  if s.maxSteps = 0 then s
  else
    { s with sequence := some { createdWith := s.patterns, steps := s.maxSteps },
             currentStep := 0,
             transport := .started }

/-- `Sequencer.updatePatterns`: reparse, recompute `maxSteps`, and when the
transport is running restart the loop (`this.stop(); this.start()`). -/
def updatePatterns (s : SequencerState) (code : String) : SequencerState :=
  let p := parse code
  let s' := { s with patterns := p, maxSteps := getMaxPatternLength p }
  if isPlaying s' then start (stop s') else s'

/-- The three synthesizer classes stored in the `drums` map of
`AudioEngine`; the `instanceof` chain in `playDrum` discriminates on them. -/
inductive DrumSynth where
  | membrane
  | noise
  | metal
deriving DecidableEq

/-- The `drums` map built in the `AudioEngine` constructor. -/
def drumsMap : List (String × DrumSynth) :=
  [("kick", .membrane), ("snare", .noise), ("hihat", .metal), ("clap", .noise)]

/-- `Map.prototype.get`: first binding with an equal key. -/
def lookupDrum : List (String × DrumSynth) → String → Option DrumSynth
  | [], _ => none
  | (k, v) :: rest, key => if key = k then some v else lookupDrum rest key

/-- A `triggerAttackRelease` call issued to a Tone synthesizer. -/
inductive ToneTrigger where
  | noteTrigger (note : String) (dur : String) (time : Nat)
  | envTrigger (dur : String) (time : Nat)
deriving DecidableEq

/-- `AudioEngine.playDrum`: look the name up after lowercasing; a
`MembraneSynth` is triggered with `('C2', '8n', time)`, a `NoiseSynth` or
`MetalSynth` with `('8n', time)`; an unknown name triggers nothing. -/
def playDrum (drumType : String) (time : Nat) : Option ToneTrigger :=
  match lookupDrum drumsMap (lowerStr drumType) with
  | some .membrane => some (.noteTrigger "C2" "8n" time)
  | some .noise => some (.envTrigger "8n" time)
  | some .metal => some (.envTrigger "8n" time)
  | none => none

/-- A dispatch performed by the `Tone.Sequence` callback in
`Sequencer.start`: at step `step` and audio time `time` it called
`playStep`, which read the *current* `patterns` field (`used`); `snap` is
the pattern set the active sequence was created with. -/
structure TickDispatch where
  step : Nat
  time : Nat
  used : ParsedPattern
  snap : ParsedPattern
deriving DecidableEq

/-- An event of the single-threaded cooperative execution: a user operation
on the sequencer, or the firing of the scheduled sequence callback at a
given step and audio time. -/
inductive SeqEvent where
  | update (code : String)
  | startE
  | stopE
  | pauseE
  | resumeE
  | tick (step : Nat) (time : Nat)
deriving DecidableEq

/-- The audio time of a tick event, `none` for user operations. -/
def tickTime : SeqEvent → Option Nat
  | .tick _ t => some t
  | _ => none

/-- Apply one event.  Returns the next state, the dispatches performed, and
a flag that is `false` exactly when the event was an `update` submitted
while the transport was not running (the live-swap claims quantify over
executions in which every pattern replacement happens while Running).
A tick callback can only fire while the transport is started and a sequence
is scheduled; it runs `playStep` against the current `patterns` field and
then sets `currentStep`, as the callback in `Sequencer.start` does. -/
def applyEvent (s : SequencerState) :
    SeqEvent → SequencerState × List TickDispatch × Bool
  | .update code => (updatePatterns s code, [], isPlaying s)
  | .startE => (start s, [], true)
  | .stopE => (stop s, [], true)
  | .pauseE => (pause s, [], true)
  | .resumeE => (resume s, [], true)
  | .tick st tm =>
    match s.sequence, s.transport with
    | some h, .started =>
      ({ s with currentStep := st },
       [{ step := st, time := tm, used := s.patterns, snap := h.createdWith }],
       true)
    | _, _ => (s, [], true)

/-- Run a list of events from a state, collecting dispatches and the
conjunction of the per-event flags. -/
def runEvents (s : SequencerState) :
    List SeqEvent → SequencerState × List TickDispatch × Bool
  | [] => (s, [], true)
  | e :: es =>
    let r1 := applyEvent s e
    let r2 := runEvents r1.1 es
    (r2.1, r1.2.1 ++ r2.2.1, r1.2.2 && r2.2.2)

/-- Claim-side dispatch condition of §4.3: the track is present in the
pattern set, its pattern has an entry at index `step`, and that entry is not
the rest symbol. -/
def firesAt (o : Option (List String)) (step : Nat) : Bool :=
  match o.bind (fun pat => pat[step]?) with
  | some n => n ≠ "-"
  | none => false

theorem countP_trackCalls_hit (o : Option (List String)) (step : Nat)
    (mk : String → BackendCall) (p : BackendCall → Bool)
    (hp : ∀ n, p (mk n) = true) :
    (trackCalls o step mk).countP p = if firesAt o step then 1 else 0 := by
  rcases o with _ | pat
  · simp [trackCalls, firesAt]
  · by_cases hs : step < pat.length
    · have hget : pat[step]? = some pat[step] := List.getElem?_eq_getElem hs
      have hgetD : pat.getD step "-" = pat[step] := by
        simp [List.getD, hget]
      by_cases hn : pat[step] = "-"
      · simp [trackCalls, firesAt, hs, hget, hgetD, hn]
      · simp [trackCalls, firesAt, hs, hget, hgetD, hn, hp]
    · have hget : pat[step]? = none := by
        simp [List.getElem?_eq_none, Nat.le_of_not_lt hs]
      simp [trackCalls, firesAt, hs, hget]

theorem countP_trackCalls_miss (o : Option (List String)) (step : Nat)
    (mk : String → BackendCall) (p : BackendCall → Bool)
    (hp : ∀ n, p (mk n) = false) :
    (trackCalls o step mk).countP p = 0 := by
  rcases o with _ | pat
  · simp [trackCalls]
  · by_cases hs : step < pat.length
    · by_cases hn : pat.getD step "-" = "-" <;>
        simp [trackCalls, hs, hn, hp]
    · simp [trackCalls, hs]

/-- C1: for every step `s`, time `t` and pattern set `P`, `playStep`
invokes the audio backend exactly once per track that is present in `P`,
whose pattern has an entry at index `s`, and whose token there is not the
rest symbol `'-'`; it makes zero backend calls for a track whose token at
`s` is `'-'` or whose pattern length is at most `s` (shorter patterns are
silent past their own end, not wrapped — `firesAt` indexes the pattern
directly, without any modulus). -/
theorem playStep_backend_calls_per_track (s t : Nat) (P : ParsedPattern) :
    (playStep P s t).countP BackendCall.isDrum =
      (if firesAt P.drums s then 1 else 0) ∧
    (playStep P s t).countP BackendCall.isBass =
      (if firesAt P.bass s then 1 else 0) ∧
    (playStep P s t).countP BackendCall.isSynth =
      (if firesAt P.synth s then 1 else 0) := by
  refine ⟨?_, ?_, ?_⟩ <;> simp only [playStep, List.countP_append]
  · rw [countP_trackCalls_hit P.drums s _ _ (fun n => rfl),
        countP_trackCalls_miss P.bass s _ _ (fun n => rfl),
        countP_trackCalls_miss P.synth s _ _ (fun n => rfl)]
    omega
  · rw [countP_trackCalls_miss P.drums s _ _ (fun n => rfl),
        countP_trackCalls_hit P.bass s _ _ (fun n => rfl),
        countP_trackCalls_miss P.synth s _ _ (fun n => rfl)]
    omega
  · rw [countP_trackCalls_miss P.drums s _ _ (fun n => rfl),
        countP_trackCalls_miss P.bass s _ _ (fun n => rfl),
        countP_trackCalls_hit P.synth s _ _ (fun n => rfl)]
    omega

/-- The patterns present in a pattern set, in track order. -/
def presentPatterns (p : ParsedPattern) : List (List String) :=
  [p.drums, p.bass, p.synth].reduceOption

/-- C5: the cycle length computed by `getMaxPatternLength` is the maximum
of the lengths of the patterns present in the set (`0` for the empty set),
and compiling the two-line example yields a bass pattern of length 4, a
synth pattern of length 2, and cycle length 4. -/
theorem getMaxPatternLength_max_of_present :
    (∀ p : ParsedPattern,
       getMaxPatternLength p =
         ((presentPatterns p).map List.length).foldr Nat.max 0) ∧
    parse "bass: C2 - E2 -\nsynth: C4 E4" =
      { bass := some ["C2", "-", "E2", "-"], synth := some ["C4", "E4"] } ∧
    getMaxPatternLength (parse "bass: C2 - E2 -\nsynth: C4 E4") = 4 := by
  refine ⟨?_, by decide, by decide⟩
  intro p
  rcases p with ⟨d, b, s⟩
  rcases d with _ | d <;> rcases b with _ | b <;> rcases s with _ | s <;>
    simp [getMaxPatternLength, presentPatterns, List.reduceOption,
          Nat.zero_max, Nat.max_zero, Nat.max_assoc]

/-- C7: from every transport state, `stop` resets the current step index to
0 and releases the scheduled-loop handle, while `pause` and `resume` leave
the current step index unchanged. -/
theorem stop_resets_pause_resume_preserve (s : SequencerState) :
    (stop s).currentStep = 0 ∧ (stop s).sequence = none ∧
    (pause s).currentStep = s.currentStep ∧
    (resume s).currentStep = s.currentStep := by
  refine ⟨rfl, rfl, ?_, rfl⟩
  unfold pause
  split <;> rfl

/-- C8: when the active pattern set is empty (cycle length 0), `start`
is a no-op apart from the warning: the state is unchanged, so no sequence
is created and the transport is not started (a stopped transport stays
stopped). -/
theorem start_noop_on_empty_patterns (s : SequencerState)
    (h : s.maxSteps = 0) :
    start s = s ∧ (start s).sequence = s.sequence ∧
    (start s).transport = s.transport := by
  have : start s = s := by simp [start, h]
  exact ⟨this, by rw [this], by rw [this]⟩

/-- C8 witness: a freshly constructed sequencer has cycle length 0 and
`start` leaves it unchanged. -/
theorem start_noop_on_empty_patterns_witness :
    initSequencer.maxSteps = 0 ∧
    start initSequencer = initSequencer ∧
    (start initSequencer).sequence = initSequencer.sequence ∧
    (start initSequencer).transport = initSequencer.transport :=
  ⟨rfl, start_noop_on_empty_patterns initSequencer rfl⟩

/-- C10: `playDrum d t` triggers a drum instrument exactly when the
lowercase of `d` is one of kick, snare, hihat, clap — the lookup is
case-insensitive, so `'KICK'` plays — and for every other string it makes
no trigger call (and, being a total function, returns normally). -/
theorem playDrum_triggers_iff_known_drum (d : String) (t : Nat) :
    ((playDrum d t).isSome = true ↔
       lowerStr d ∈ (["kick", "snare", "hihat", "clap"] : List String)) ∧
    (playDrum "KICK" 0).isSome = true := by
  refine ⟨?_, by decide⟩
  by_cases h1 : lowerStr d = "kick" <;>
    by_cases h2 : lowerStr d = "snare" <;>
      by_cases h3 : lowerStr d = "hihat" <;>
        by_cases h4 : lowerStr d = "clap" <;>
          simp [playDrum, lookupDrum, drumsMap, h1, h2, h3, h4]

/-- The note-letter class of the spec's grammar, as a proposition. -/
def NoteLetterSpec (c : Char) : Prop :=
  ('A' ≤ c ∧ c ≤ 'G') ∨ ('a' ≤ c ∧ c ≤ 'g')

/-- The sharp/flat modifier of the spec's grammar, as a proposition. -/
def AccidentalSpec (c : Char) : Prop :=
  c = '#' ∨ c = 'b'

/-- The octave-digit class of the spec's grammar, as a proposition. -/
def OctaveSpec (c : Char) : Prop :=
  '0' ≤ c ∧ c ≤ '8'

/-- A pitch descriptor per the spec's grammar: a note letter, an optional
sharp/flat modifier, and an octave digit. -/
def PitchShape (n : String) : Prop :=
  (∃ l o, n.data = [l, o] ∧ NoteLetterSpec l ∧ OctaveSpec o) ∨
  (∃ l m o, n.data = [l, m, o] ∧ NoteLetterSpec l ∧ AccidentalSpec m ∧
    OctaveSpec o)

theorem isNoteLetter_iff (c : Char) :
    isNoteLetter c = true ↔ NoteLetterSpec c := by
  simp [isNoteLetter, NoteLetterSpec]

theorem isOctaveDigit_iff (c : Char) :
    isOctaveDigit c = true ↔ OctaveSpec c := by
  simp [isOctaveDigit, OctaveSpec]

theorem notePatternCL_iff (cs : List Char) :
    notePatternCL cs = true ↔
      ((∃ l o, cs = [l, o] ∧ NoteLetterSpec l ∧ OctaveSpec o) ∨
       (∃ l m o, cs = [l, m, o] ∧ NoteLetterSpec l ∧ AccidentalSpec m ∧
         OctaveSpec o)) := by
  rcases cs with _ | ⟨a, _ | ⟨b, _ | ⟨c, _ | ⟨d, rest⟩⟩⟩⟩ <;>
    simp [notePatternCL, isNoteLetter_iff, isOctaveDigit_iff, AccidentalSpec,
          and_assoc]

/-- C9 counterexample: the claim's characterization fails on the rest token:
`isValidNote('-', 'drums')` returns `true`, but `'-'` is not a member of the
drum-hit vocabulary. -/
theorem isValidNote_rest_counterexample :
    ¬(isValidNote "-" "drums" = true ↔ ("-" : String) ∈ validDrums) := by
  decide

/-- C9 (amended): `isValidNote note track` returns `true` exactly when the
token is the rest symbol `'-'` (always valid), or the track is the
percussion track and the lowercased token is in the drum-hit vocabulary
kick/snare/hihat/clap, or the track is any non-percussion track and the
token is a pitch descriptor (letter `A`–`G` in either case, optional `#`
or `b`, octave digit `0`–`8`). -/
theorem isValidNote_characterization (note track : String) :
    isValidNote note track = true ↔
      (note = "-" ∨
       (track = "drums" ∧ lowerStr note ∈ validDrums) ∨
       (track ≠ "drums" ∧ PitchShape note)) := by
  by_cases h1 : note = "-"
  · simp [isValidNote, h1]
  · by_cases h2 : track = "drums"
    · simp [isValidNote, h1, h2, List.elem_iff]
    · simp [isValidNote, h1, h2, notePatternTest, notePatternCL_iff,
            PitchShape]

theorem mem_dropWhile_of_mem {p : Char → Bool} {c : Char} {l : List Char}
    (hc : c ∈ l) (hp : p c = false) : c ∈ l.dropWhile p := by
  induction l with
  | nil => cases hc
  | cons a as ih =>
    rw [List.dropWhile_cons]
    by_cases ha : p a = true
    · rw [if_pos ha]
      rcases List.mem_cons.mp hc with h | h
      · subst h; rw [hp] at ha; cases ha
      · exact ih h
    · rw [if_neg ha]
      exact hc

theorem jsTrimCL_ne_nil_of_mem {c : Char} {cs : List Char}
    (hc : c ∈ cs) (hp : isWS c = false) : jsTrimCL cs ≠ [] := by
  unfold jsTrimCL
  have h1 : c ∈ cs.dropWhile isWS := mem_dropWhile_of_mem hc hp
  have h2 : c ∈ (cs.dropWhile isWS).reverse := List.mem_reverse.mpr h1
  have h3 := mem_dropWhile_of_mem h2 hp
  exact List.ne_nil_of_mem (List.mem_reverse.mpr h3)

theorem tryName_some {name : String} {cs : List Char} {i : String}
    {cap : List Char} (h : tryName name cs = some (i, cap)) :
    i = name ∧ (':' : Char) ∈ cs := by
  unfold tryName at h
  by_cases hpre : lowerCL (cs.take name.length) = name.data
  · rw [if_pos hpre] at h
    rcases hd : (cs.drop name.length).dropWhile isWS with _ | ⟨c0, rest⟩ <;>
      rw [hd] at h
    · cases h
    · replace h :
        (if c0 = ':' then (jsMatchRest rest).map (fun cap => (name, cap))
         else none) = some (i, cap) := h
      by_cases hc : c0 = ':'
      · rw [if_pos hc] at h
        subst hc
        have hmem : (':' : Char) ∈ (cs.drop name.length).dropWhile isWS := by
          rw [hd]; exact List.mem_cons_self _ _
        have hmem2 : (':' : Char) ∈ cs.drop name.length :=
          (List.dropWhile_suffix isWS).sublist.subset hmem
        refine ⟨?_, List.drop_subset _ _ hmem2⟩
        rcases hjm : jsMatchRest rest with _ | cap' <;> rw [hjm] at h
        · cases h
        · cases h; rfl
      · rw [if_neg hc] at h; cases h
  · rw [if_neg hpre] at h; cases h

theorem lineMatch_some {cs : List Char} {i : String} {cap : List Char}
    (h : lineMatch cs = some (i, cap)) :
    (i = "drums" ∨ i = "bass" ∨ i = "synth") ∧ (':' : Char) ∈ cs := by
  unfold lineMatch at h
  rcases h1 : tryName "drums" cs with _ | r1 <;> rw [h1] at h
  · rcases h2 : tryName "bass" cs with _ | r2 <;> rw [h2] at h
    · obtain ⟨hn, hm⟩ := tryName_some h
      exact ⟨Or.inr (Or.inr hn), hm⟩
    · cases h
      obtain ⟨hn, hm⟩ := tryName_some h2
      exact ⟨Or.inr (Or.inl hn), hm⟩
  · cases h
    obtain ⟨hn, hm⟩ := tryName_some h1
    exact ⟨Or.inl hn, hm⟩

theorem parseLine_some {l : String} {i : String} {ns : List String}
    (h : parseLine l = some (i, ns)) :
    (i = "drums" ∨ i = "bass" ∨ i = "synth") ∧
      0 < (jsTrimCL l.data).length := by
  unfold parseLine at h
  by_cases hcom : startsWithCL (jsTrimCL l.data) ['/', '/'] = true
  · rw [if_pos hcom] at h; cases h
  · rw [if_neg hcom] at h
    rcases hm : lineMatch l.data with _ | r <;> rw [hm] at h
    · cases h
    · rcases r with ⟨i', cap⟩
      cases h
      obtain ⟨hn, hcolon⟩ := lineMatch_some hm
      refine ⟨hn, ?_⟩
      have : jsTrimCL l.data ≠ [] :=
        jsTrimCL_ne_nil_of_mem hcolon (by decide)
      exact List.length_pos.mpr this

theorem parseLine_none_processLine {l : String}
    (h : parseLine l = none) (acc : ParsedPattern) :
    processLine acc l = acc := by
  simp [processLine, h]

/-- A line that `PatternParser.parse` skips: blank (only whitespace), a
`//` comment after trimming, or a line the track regular expression rejects
(which covers both malformed lines and unrecognized track names, since the
expression only accepts drums/bass/synth). -/
def SkippedLine (l : String) : Prop :=
  jsTrimCL l.data = [] ∨
  startsWithCL (jsTrimCL l.data) ['/', '/'] = true ∨
  lineMatch l.data = none

instance (l : String) : Decidable (SkippedLine l) := by
  unfold SkippedLine
  infer_instance

/-- C2: compilation is total by construction (`parse` is a Lean function:
it never throws), and inserting a skipped line — blank, `//` comment,
malformed, or with an unrecognized track name — anywhere between the lines
of the input changes nothing: the line contributes nothing and every other
line is still compiled. -/
theorem parse_skips_irrelevant_lines (l1 l2 : List String) (l : String)
    (h : SkippedLine l) :
    parseLines (l1 ++ l :: l2) = parseLines (l1 ++ l2) := by
  unfold parseLines
  rw [List.filter_append, List.filter_append, List.filter_cons]
  rcases h with hblank | hskip
  · rw [hblank]
    simp
  · have hpl : parseLine l = none := by
      rcases hskip with hcom | hnom
      · simp [parseLine, hcom]
      · unfold parseLine
        rw [hnom]
        split <;> rfl
    by_cases hb : decide (0 < (jsTrimCL l.data).length) = true
    · rw [hb]
      simp only [if_true, List.foldl_append, List.foldl_cons,
        parseLine_none_processLine hpl]
    · rw [Bool.not_eq_true] at hb
      rw [hb]
      simp

/-- C2 witness: a line with an unrecognized track name is skipped — the
example line `piano: C4 C4` contributes nothing next to a drums line. -/
theorem parse_skips_irrelevant_lines_witness :
    SkippedLine "piano: C4 C4" ∧
      parseLines (["drums: kick"] ++ "piano: C4 C4" :: []) =
        parseLines (["drums: kick"] ++ []) :=
  ⟨by decide,
   parse_skips_irrelevant_lines ["drums: kick"] [] "piano: C4 C4" (by decide)⟩

/-- The pattern stored for a given track name, as the `if/else if` chain of
`PatternParser.parse` addresses it. -/
def getTrack (i : String) (p : ParsedPattern) : Option (List String) :=
  if i = "drums" then p.drums
  else if i = "bass" then p.bass
  else if i = "synth" then p.synth
  else none

theorem getTrack_setTrack_ne (acc : ParsedPattern) (i j : String)
    (ns : List String) (h : i ≠ j) :
    getTrack i (setTrack acc j ns) = getTrack i acc := by
  by_cases h1 : j = "drums"
  · subst h1
    simp [setTrack, getTrack, h]
  · by_cases h2 : j = "bass"
    · subst h2
      simp [setTrack, getTrack, h]
    · by_cases h3 : j = "synth"
      · subst h3
        simp [setTrack, getTrack, h]
      · simp [setTrack, h1, h2, h3]

theorem getTrack_foldl_no_match (i : String) :
    ∀ (ls : List String) (acc : ParsedPattern),
      (∀ l' ∈ ls, ∀ ns', parseLine l' ≠ some (i, ns')) →
      getTrack i (ls.foldl processLine acc) = getTrack i acc := by
  intro ls
  induction ls with
  | nil =>
    intro acc _
    rfl
  | cons a as ih =>
    intro acc hno
    rw [List.foldl_cons,
        ih _ (fun l' hl' => hno l' (List.mem_cons_of_mem a hl'))]
    rcases hres : parseLine a with _ | ⟨j, ns'⟩
    · simp [processLine, hres]
    · have hne : i ≠ j := by
        intro hEq
        apply hno a (List.mem_cons_self a as) ns'
        rw [hres, hEq]
      simp [processLine, hres, getTrack_setTrack_ne acc i j ns' hne]

/-- C6: for every input whose lines split as `ls1 ++ l :: ls2`, where `l`
matches track `i` and no line of `ls2` matches track `i` (that is, `l` is
the last matching line for that track — earlier lines and later lines for
other tracks are arbitrary), the compiled pattern set maps track `i` to
`l`'s token sequence: the last matching line for a given track wins, with
no merging. -/
theorem parse_last_line_wins (ls1 ls2 : List String) (l : String)
    (i : String) (ns : List String)
    (h : parseLine l = some (i, ns))
    (hafter : ∀ l' ∈ ls2, ∀ ns', parseLine l' ≠ some (i, ns')) :
    getTrack i (parseLines (ls1 ++ l :: ls2)) = some ns := by
  obtain ⟨hnames, hlen⟩ := parseLine_some h
  unfold parseLines
  rw [List.filter_append]
  have hkeep :
      ((l :: ls2).filter
        (fun l' => decide (0 < (jsTrimCL l'.data).length))) =
      l :: ls2.filter (fun l' => decide (0 < (jsTrimCL l'.data).length)) := by
    simp [hlen]
  rw [hkeep, List.foldl_append, List.foldl_cons,
      getTrack_foldl_no_match i _ _
        (fun l' hl' => hafter l' (List.mem_of_mem_filter hl'))]
  simp only [processLine, h]
  rcases hnames with h1 | h1 | h1 <;> subst h1 <;> simp [getTrack, setTrack]

/-- C6 witness: in `drums: kick` / `drums: snare` / `bass: C2`, the last
matching drums line is followed by a bass line, and the compiled set still
maps drums to the last drums line's pattern `[snare]`. -/
theorem parse_last_line_wins_witness :
    parseLine "drums: snare" = some ("drums", ["snare"]) ∧
      getTrack "drums"
          (parseLines (["drums: kick"] ++ "drums: snare" :: ["bass: C2"])) =
        some ["snare"] ∧
      parse "drums: kick\ndrums: snare\nbass: C2" =
        { drums := some ["snare"], bass := some ["C2"] } := by
  refine ⟨by decide, ?_, by decide⟩
  refine parse_last_line_wins ["drums: kick"] ["bass: C2"] "drums: snare"
    "drums" ["snare"] (by decide) ?_
  intro l' hl' ns' hcontra
  rw [List.mem_singleton] at hl'
  subst hl'
  have hbass : parseLine "bass: C2" = some ("bass", ["C2"]) := by decide
  rw [hbass] at hcontra
  simp at hcontra

/-- Coherence between the scheduled sequence and the sequencer: the pattern
set the active `Tone.Sequence` was created from is the pattern set the tick
callback will read. -/
def SeqInv (s : SequencerState) : Prop :=
  ∀ h, s.sequence = some h → h.createdWith = s.patterns

theorem seqInv_stop (s : SequencerState) : SeqInv (stop s) := by
  intro h hh
  simp [stop] at hh

theorem seqInv_start {s : SequencerState} (hs : SeqInv s) :
    SeqInv (start s) := by
  intro h hh
  by_cases hm : s.maxSteps = 0
  · simp only [start, if_pos hm] at hh ⊢
    exact hs h hh
  · simp only [start, if_neg hm, Option.some.injEq] at hh ⊢
    rw [← hh]

theorem seqInv_pause {s : SequencerState} (hs : SeqInv s) :
    SeqInv (pause s) := by
  intro h hh
  by_cases hc : s.transport = TransportState.started
  · simp only [pause, if_pos hc] at hh ⊢
    exact hs h hh
  · simp only [pause, if_neg hc] at hh ⊢
    exact hs h hh

theorem seqInv_resume {s : SequencerState} (hs : SeqInv s) :
    SeqInv (resume s) := by
  intro h hh
  exact hs h hh

theorem updatePatterns_eq (s : SequencerState) (code : String) :
    updatePatterns s code =
      if isPlaying s = true then
        start (stop { s with patterns := parse code,
                             maxSteps := getMaxPatternLength (parse code) })
      else { s with patterns := parse code,
                    maxSteps := getMaxPatternLength (parse code) } := by
  rfl

theorem seqInv_update_playing {s : SequencerState} (code : String)
    (hp : isPlaying s = true) : SeqInv (updatePatterns s code) := by
  rw [updatePatterns_eq, if_pos hp]
  exact seqInv_start (seqInv_stop _)

theorem runEvents_inv : ∀ (evs : List SeqEvent) (s : SequencerState),
    SeqInv s → (runEvents s evs).2.2 = true →
    (∀ d ∈ (runEvents s evs).2.1, d.used = d.snap) ∧
      SeqInv (runEvents s evs).1 := by
  intro evs
  induction evs with
  | nil =>
    intro s hs _
    exact ⟨by simp [runEvents], hs⟩
  | cons e es ih =>
    intro s hs hflag
    simp only [runEvents, Bool.and_eq_true] at hflag ⊢
    cases e with
    | update code =>
      simp only [applyEvent] at hflag ⊢
      obtain ⟨h1, h2⟩ := hflag
      have hs' := seqInv_update_playing code h1
      obtain ⟨hd, hinv⟩ := ih _ hs' h2
      refine ⟨?_, hinv⟩
      intro d hd'
      simp only [List.nil_append] at hd'
      exact hd d hd'
    | startE =>
      simp only [applyEvent] at hflag ⊢
      obtain ⟨hd, hinv⟩ := ih _ (seqInv_start hs) hflag.2
      exact ⟨fun d hd' => hd d (by simpa using hd'), hinv⟩
    | stopE =>
      simp only [applyEvent] at hflag ⊢
      obtain ⟨hd, hinv⟩ := ih _ (seqInv_stop s) hflag.2
      exact ⟨fun d hd' => hd d (by simpa using hd'), hinv⟩
    | pauseE =>
      simp only [applyEvent] at hflag ⊢
      obtain ⟨hd, hinv⟩ := ih _ (seqInv_pause hs) hflag.2
      exact ⟨fun d hd' => hd d (by simpa using hd'), hinv⟩
    | resumeE =>
      simp only [applyEvent] at hflag ⊢
      obtain ⟨hd, hinv⟩ := ih _ (seqInv_resume hs) hflag.2
      exact ⟨fun d hd' => hd d (by simpa using hd'), hinv⟩
    | tick st tm =>
      rcases hq : s.sequence with _ | h0 <;>
        rcases ht : s.transport with _ | _ | _ <;>
          simp only [applyEvent, hq, ht] at hflag ⊢
      case none.started =>
        obtain ⟨hd, hinv⟩ := ih s hs hflag.2
        exact ⟨fun d hd' => hd d (by simpa using hd'), hinv⟩
      case none.paused =>
        obtain ⟨hd, hinv⟩ := ih s hs hflag.2
        exact ⟨fun d hd' => hd d (by simpa using hd'), hinv⟩
      case none.stopped =>
        obtain ⟨hd, hinv⟩ := ih s hs hflag.2
        exact ⟨fun d hd' => hd d (by simpa using hd'), hinv⟩
      case some.started =>
        have hs' :
            SeqInv ⟨s.patterns, s.maxSteps, st, TransportState.started,
              some h0⟩ := by
          intro h hh
          simp only [Option.some.injEq] at hh
          rw [← hh]
          exact hs h0 hq
        obtain ⟨hd, hinv⟩ := ih _ hs' hflag.2
        refine ⟨?_, hinv⟩
        intro d hd'
        rcases List.mem_cons.mp (by simpa using hd') with h | h
        · subst h
          exact (hs h0 hq).symm
        · exact hd d h
      case some.paused =>
        obtain ⟨hd, hinv⟩ := ih s hs hflag.2
        exact ⟨fun d hd' => hd d (by simpa using hd'), hinv⟩
      case some.stopped =>
        obtain ⟨hd, hinv⟩ := ih s hs hflag.2
        exact ⟨fun d hd' => hd d (by simpa using hd'), hinv⟩

theorem runEvents_times_sublist : ∀ (evs : List SeqEvent)
    (s : SequencerState),
    List.Sublist ((runEvents s evs).2.1.map TickDispatch.time)
      (evs.filterMap tickTime) := by
  intro evs
  induction evs with
  | nil =>
    intro s
    simp [runEvents]
  | cons e es ih =>
    intro s
    cases e with
    | update code =>
      simpa only [runEvents, applyEvent, List.nil_append,
        List.filterMap_cons, tickTime] using ih _
    | startE =>
      simpa only [runEvents, applyEvent, List.nil_append,
        List.filterMap_cons, tickTime] using ih _
    | stopE =>
      simpa only [runEvents, applyEvent, List.nil_append,
        List.filterMap_cons, tickTime] using ih _
    | pauseE =>
      simpa only [runEvents, applyEvent, List.nil_append,
        List.filterMap_cons, tickTime] using ih _
    | resumeE =>
      simpa only [runEvents, applyEvent, List.nil_append,
        List.filterMap_cons, tickTime] using ih _
    | tick st tm =>
      rcases hq : s.sequence with _ | h0 <;>
        rcases ht : s.transport with _ | _ | _ <;>
          simp only [runEvents, applyEvent, hq, ht, List.nil_append,
            List.cons_append, List.filterMap_cons, tickTime, List.map_cons]
      case none.started => exact List.Sublist.cons _ (ih _)
      case none.paused => exact List.Sublist.cons _ (ih _)
      case none.stopped => exact List.Sublist.cons _ (ih _)
      case some.started => exact List.Sublist.cons₂ _ (ih _)
      case some.paused => exact List.Sublist.cons _ (ih _)
      case some.stopped => exact List.Sublist.cons _ (ih _)

/-- C3: along any cooperative execution in which every pattern replacement
is submitted while the transport is Running (the run flag is `true`), every
tick that fires dispatches with exactly the pattern set the active sequence
was created from — its scheduling-time snapshot, never a set mutated
mid-dispatch (a swap while Running disposes the old sequence and installs a
fresh one built from the new set before any further tick can fire); the
final state never leaves the scheduled sequence holding a disposed
(replaced) pattern set; and when the host audio clock delivers tick times
strictly increasing, no two dispatches ever share an absolute tick time. -/
theorem live_swap_snapshot_dispatch (s0 : SequencerState)
    (evs : List SeqEvent)
    (h0 : s0.sequence = none)
    (hflag : (runEvents s0 evs).2.2 = true)
    (htimes : (evs.filterMap tickTime).Pairwise (· < ·)) :
    (∀ d ∈ (runEvents s0 evs).2.1, d.used = d.snap) ∧
    (∀ h, (runEvents s0 evs).1.sequence = some h →
        h.createdWith = (runEvents s0 evs).1.patterns) ∧
    ((runEvents s0 evs).2.1.map TickDispatch.time).Pairwise (· ≠ ·) := by
  have hs : SeqInv s0 := by
    intro h hh
    rw [h0] at hh
    cases hh
  obtain ⟨h1, h2⟩ := runEvents_inv evs s0 hs hflag
  refine ⟨h1, h2, ?_⟩
  have hsub := runEvents_times_sublist evs s0
  exact (List.Pairwise.sublist hsub htimes).imp Nat.ne_of_lt

/-- The initial state for the C3 witness run: patterns staged, stopped,
no sequence scheduled. -/
def liveSwapInit : SequencerState :=
  { patterns := { drums := some ["kick", "kick"] }, maxSteps := 2,
    currentStep := 0, transport := .stopped, sequence := none }

/-- The C3 witness trace: start, a tick, a live swap while Running, and
another tick. -/
def liveSwapTrace : List SeqEvent :=
  [.startE, .tick 0 5, .update "drums: snare", .tick 0 7]

/-- C3 witness: the live-swap theorem applied to a concrete run containing
a pattern replacement while Running. -/
theorem live_swap_snapshot_dispatch_witness :
    (∀ d ∈ (runEvents liveSwapInit liveSwapTrace).2.1, d.used = d.snap) ∧
    (∀ h, (runEvents liveSwapInit liveSwapTrace).1.sequence = some h →
        h.createdWith = (runEvents liveSwapInit liveSwapTrace).1.patterns) ∧
    ((runEvents liveSwapInit liveSwapTrace).2.1.map
        TickDispatch.time).Pairwise (· ≠ ·) :=
  live_swap_snapshot_dispatch liveSwapInit liveSwapTrace rfl (by decide)
    (by decide)

/-- A concrete Running sequencer state used as the C4 counterexample. -/
def runningDrums : SequencerState :=
  { patterns := { drums := some ["kick", "snare"] }, maxSteps := 2,
    currentStep := 1, transport := .started,
    sequence := some { createdWith := { drums := some ["kick", "snare"] },
                       steps := 2 } }

/-- C4 counterexample: submitting, while Running, a code string that
compiles to an empty pattern set does NOT start a new loop — after
`updatePatterns` no sequence is scheduled and the transport is stopped,
contradicting the claim that a new loop built from the newly compiled set
is always started. -/
theorem updatePatterns_running_empty_counterexample :
    isPlaying runningDrums = true ∧
    (updatePatterns runningDrums "// silence").sequence = none ∧
    (updatePatterns runningDrums "// silence").transport =
      TransportState.stopped := by
  decide

/-- C4 (amended): submitting code while Running stops the old loop and
resets the step index to 0, and when the newly compiled set is non-empty
it starts a new loop built from that set; when the new set is empty no new
loop is started and the transport is left stopped.  Submitting code while
Paused or Stopped only stages the new pattern set (patterns and cycle
length are updated and nothing else changes), so it takes effect on the
next `start`. -/
theorem updatePatterns_policy (s : SequencerState) (code : String) :
    (isPlaying s = true →
      updatePatterns s code =
        (if getMaxPatternLength (parse code) = 0 then
          { patterns := parse code,
            maxSteps := getMaxPatternLength (parse code),
            currentStep := 0, transport := .stopped, sequence := none }
         else
          { patterns := parse code,
            maxSteps := getMaxPatternLength (parse code),
            currentStep := 0, transport := .started,
            sequence := some { createdWith := parse code,
                               steps := getMaxPatternLength (parse code) } })) ∧
    (isPlaying s = false →
      updatePatterns s code =
        { s with patterns := parse code,
                 maxSteps := getMaxPatternLength (parse code) }) := by
  constructor
  · intro hp
    rw [updatePatterns_eq, if_pos hp]
    by_cases hm : getMaxPatternLength (parse code) = 0
    · rw [if_pos hm]
      simp [start, stop, hm]
    · rw [if_neg hm]
      simp [start, stop, hm]
  · intro hp
    rw [updatePatterns_eq, if_neg]
    rw [hp]
    exact Bool.false_ne_true

/-- A concrete Paused sequencer state for the C4 witness. -/
def pausedDrums : SequencerState :=
  { patterns := { drums := some ["kick", "snare"] }, maxSteps := 2,
    currentStep := 1, transport := .paused,
    sequence := some { createdWith := { drums := some ["kick", "snare"] },
                       steps := 2 } }

/-- C4 witness: the policy theorem applied to a Running state receiving a
non-empty bass line (old loop stopped, step reset, fresh loop from the new
set) and to a Paused state (the edit is only staged). -/
theorem updatePatterns_policy_witness :
    (isPlaying runningDrums = true ∧
      updatePatterns runningDrums "bass: C2" =
        { patterns := { bass := some ["C2"] }, maxSteps := 1,
          currentStep := 0, transport := .started,
          sequence := some { createdWith := { bass := some ["C2"] },
                             steps := 1 } }) ∧
    (isPlaying pausedDrums = false ∧
      updatePatterns pausedDrums "bass: C2" =
        { pausedDrums with patterns := { bass := some ["C2"] },
                           maxSteps := 1 }) := by
  refine ⟨⟨rfl, ?_⟩, ⟨rfl, ?_⟩⟩
  · have h := (updatePatterns_policy runningDrums "bass: C2").1 rfl
    rw [h]
    decide
  · have h := (updatePatterns_policy pausedDrums "bass: C2").2 rfl
    rw [h]
    decide
